import Mathlib

/-!
Shallow embedding of the todo-app task state-management core
(`TodoApp.jsx`): the task record, the mutation operations
`addTask` / `toggleTask` / `deleteTask` / `updateTask`, the category
filter `getFilteredTasks`, the per-category badge count, and the
localStorage load/save contract, together with theorems settling the
frozen claims about them.
-/

namespace TodoApp

/-- A task record, as built by `addTask` in `TodoApp.jsx`:
`{ id, text, completed, category, dueDate, dueTime }`.  `id` is the
`Date.now()` timestamp (a nonnegative integer), `dueDate`/`dueTime` are
either a string or `null` (here `Option String`). -/
structure Task where
  id : Nat
  text : String
  completed : Bool
  category : String
  dueDate : Option String
  dueTime : Option String
  deriving DecidableEq, Repr

/-- Executable model of JavaScript `String.prototype.trim`: removes
whitespace from both ends of the string.  (The built-in `String.trim` is
defined by well-founded recursion on byte positions, which the kernel
cannot evaluate; this structurally recursive version computes.) -/
def jsTrim (s : String) : String :=
  ⟨((s.data.dropWhile Char.isWhitespace).reverse.dropWhile Char.isWhitespace).reverse⟩

/-- Model of the JavaScript idiom `s || null` applied to a string state
variable: the empty string (the only falsy string) becomes `null`,
every other string is kept. -/
def orNull (s : String) : Option String :=
  if s = "" then none else some s

/-- Model of `addTask` (TodoApp.jsx lines 118-140): if the input text trims to the
empty string, no mutation; otherwise append a new task built from the
controlled-input states.  The `Date.now()` call is passed in as the
`now` argument, since it is an environment read. -/
def addTask (tasks : List Task) (newTask selectedCategory dueDate dueTime : String)
    (now : Nat) : List Task :=
  if jsTrim newTask = "" then tasks
  else tasks ++ [{ id := now, text := newTask, completed := false,
                   category := selectedCategory,
                   dueDate := orNull dueDate, dueTime := orNull dueTime }]

/-- Model of `toggleTask` (TodoApp.jsx lines 152-158): map over the collection,
flipping `completed` on the task whose `id` matches. -/
def toggleTask (tasks : List Task) (id : Nat) : List Task :=
  tasks.map fun task =>
    if task.id = id then { task with completed := !task.completed } else task

/-- Model of `deleteTask` (TodoApp.jsx lines 168-170): keep exactly the tasks whose
`id` differs. -/
def deleteTask (tasks : List Task) (id : Nat) : List Task :=
  tasks.filter fun task => task.id != id

/-- Model of `updateTask` (TodoApp.jsx lines 190-207): if the edit text trims to
empty, no mutation; otherwise replace `text`, `dueDate`, `dueTime` on the
task whose `id` matches (empty-string date/time inputs become `null`),
leaving `category` and `completed` untouched. -/
def updateTask (tasks : List Task) (id : Nat)
    (editTaskText editDueDate editDueTime : String) : List Task :=
  if jsTrim editTaskText = "" then tasks
  else tasks.map fun task =>
    if task.id = id then
      { task with text := editTaskText,
                  dueDate := orNull editDueDate, dueTime := orNull editDueTime }
    else task

/-- Model of `getFilteredTasks` (TodoApp.jsx lines 243-248): the full collection for
the `"All"` sentinel, otherwise the tasks whose `category` equals the
active filter. -/
def getFilteredTasks (tasks : List Task) (activeFilter : String) : List Task :=
  if activeFilter = "All" then tasks
  else tasks.filter fun task => task.category == activeFilter

/-- The per-category count shown in the badge of a filter button
(TodoApp.jsx line 354): `tasks.filter(t => t.category === filter).length`. -/
def categoryBadgeCount (tasks : List Task) (filter : String) : Nat :=
  (tasks.filter fun t => t.category == filter).length

/-- The list of ids occurring in the collection, in order. -/
def idsOf (tasks : List Task) : List Nat :=
  tasks.map Task.id

/-- One user-initiated mutation of the task store.  `add` carries the
`Date.now()` value observed at the time of the call. -/
inductive Op where
  | add (text category dueDate dueTime : String) (now : Nat)
  | toggle (id : Nat)
  | update (id : Nat) (text dueDate dueTime : String)
  | delete (id : Nat)
  deriving DecidableEq, Repr

/-- Apply one operation to the collection. -/
def applyOp (tasks : List Task) : Op → List Task
  | .add text category dueDate dueTime now => addTask tasks text category dueDate dueTime now
  | .toggle id => toggleTask tasks id
  | .update id text dueDate dueTime => updateTask tasks id text dueDate dueTime
  | .delete id => deleteTask tasks id

/-- Run a sequence of operations from a starting collection. -/
def run (tasks : List Task) (ops : List Op) : List Task :=
  ops.foldl applyOp tasks

/-- Along a trace, every `add` operation is handed a timestamp that is not
already the id of a task in the collection at the moment it executes
(a strictly advancing `Date.now()` clock guarantees this). -/
def freshAdds (tasks : List Task) : List Op → Bool
  | [] => true
  | op :: ops =>
    (match op with
     | .add _ _ _ _ now => !(idsOf tasks).contains now
     | _ => true) && freshAdds (applyOp tasks op) ops

/-- No operation in the list is an `add` carrying the given timestamp id. -/
def noAddWith (id : Nat) (ops : List Op) : Bool :=
  ops.all fun op =>
    match op with
    | .add _ _ _ _ now => now != id
    | _ => true

/-- A JSON value, the result of a successful `JSON.parse`. -/
inductive Json where
  | null
  | bool (b : Bool)
  | num (n : Int)
  | str (s : String)
  | arr (elems : List Json)
  | obj (fields : List (String × Json))
  deriving Repr

/-- What the `localStorage.getItem` read of the fixed key can yield,
partitioned by how the
load effect (TodoApp.jsx lines 71-81) treats it: the key is absent
(`getItem` returns `null`), the stored string is empty (falsy, so the
`if (savedTasks)` guard skips it), the stored string is not valid JSON
(`JSON.parse` throws), or it is valid JSON parsing to a value `j`.
Parsing is modelled at the JSON-value level: which value a given text
parses to is outside the scope of this core. -/
inductive Stored where
  | absent
  | emptyString
  | malformed
  | wellFormed (j : Json)

/-- Outcome of the load effect: the resulting `tasks` state (a JSON value,
since `setTasks(parsedTasks)` installs whatever `JSON.parse` produced,
with no shape validation), and whether `console.error` was invoked. -/
structure LoadResult where
  tasks : Json
  errorLogged : Bool
  deriving Repr

/-- The load effect (TodoApp.jsx lines 71-81).  The `tasks` state starts as
`[]`; it is replaced only when `getItem` returns a truthy string that
parses successfully.  A `JSON.parse` exception is caught, logged via
`console.error`, and leaves the initial empty collection in place. -/
def loadTasks : Stored → LoadResult
  | .absent => { tasks := .arr [], errorLogged := false }
  | .emptyString => { tasks := .arr [], errorLogged := false }
  | .malformed => { tasks := .arr [], errorLogged := true }
  | .wellFormed j => { tasks := j, errorLogged := false }

/-- The save effect (TodoApp.jsx lines 90-99):
`localStorage.setItem` writes `JSON.stringify(tasks)` under the fixed
key.  `JSON.stringify`
of a JSON value always produces a valid JSON text that parses back to the
same value, so at the value level saving stores `Stored.wellFormed` of the
current state. -/
def saveValue (j : Json) : Stored :=
  .wellFormed j

/-- Encoding of an optional string field: `JSON.stringify` renders the
`null` stored by `addTask`/`updateTask` as JSON `null`. -/
def encodeOptStr : Option String → Json
  | none => .null
  | some s => .str s

/-- How `JSON.stringify` renders one task record: an object with the six
fields in construction order. -/
def encodeTask (t : Task) : Json :=
  .obj [("id", .num (Int.ofNat t.id)), ("text", .str t.text),
        ("completed", .bool t.completed), ("category", .str t.category),
        ("dueDate", encodeOptStr t.dueDate), ("dueTime", encodeOptStr t.dueTime)]

/-- How `JSON.stringify` renders the whole collection: a JSON array. -/
def encodeTasks (tasks : List Task) : Json :=
  .arr (tasks.map encodeTask)

/-- Field lookup in a JSON object. -/
def lookupField (fields : List (String × Json)) (k : String) : Option Json :=
  (fields.find? fun p => p.1 == k).map fun p => p.2

/-- Modelled from the spec: decoding of an optional `dueDate`/`dueTime`
field of the expected stored shape — absent or `null` means no value, a
string is the value, anything else is not the expected shape. -/
def decodeOptField : Option Json → Option (Option String)
  | none => some none
  | some .null => some none
  | some (.str s) => some (some s)
  | some _ => none

/-- Modelled from the spec (§6): the expected shape of one stored Task
record — a mapping with `id` (nonnegative integer), `text` (string),
`completed` (boolean), `category` (string), and optional
`dueDate`/`dueTime` strings.  The source performs no such validation;
this definition exists to state what "parses as the expected structured
format" means. -/
def decodeTask : Json → Option Task
  | .obj fields =>
    match lookupField fields "id", lookupField fields "text",
          lookupField fields "completed", lookupField fields "category",
          decodeOptField (lookupField fields "dueDate"),
          decodeOptField (lookupField fields "dueTime") with
    | some (.num (Int.ofNat n)), some (.str t), some (.bool c), some (.str cat),
      some d, some dt =>
      some { id := n, text := t, completed := c, category := cat,
             dueDate := d, dueTime := dt }
    | _, _, _, _, _, _ => none
  | _ => none

/-- Decode a list of JSON values as task records; fails if any element
fails. -/
def decodeTaskList : List Json → Option (List Task)
  | [] => some []
  | j :: js =>
    match decodeTask j, decodeTaskList js with
    | some t, some ts => some (t :: ts)
    | _, _ => none

/-- Modelled from the spec (§6): the expected structured format of the
whole stored value — an ordered sequence (JSON array) of Task records. -/
def decodeTasks : Json → Option (List Task)
  | .arr elems => decodeTaskList elems
  | _ => none

/-! Helper lemmas. -/

theorem mem_zip_map {α β : Type} (l : List α) (f : α → β) (p : α × β)
    (hp : p ∈ l.zip (l.map f)) : p.2 = f p.1 := by
  induction l with
  | nil => cases hp
  | cons a l ih =>
    simp only [List.map_cons, List.zip_cons_cons, List.mem_cons] at hp
    rcases hp with h | h
    · subst h; rfl
    · exact ih h

theorem ids_toggle (tasks : List Task) (id : Nat) :
    idsOf (toggleTask tasks id) = idsOf tasks := by
  unfold idsOf toggleTask
  rw [List.map_map]
  apply List.map_congr_left
  intro t _
  by_cases h : t.id = id <;> simp [h]

theorem ids_update (tasks : List Task) (id : Nat) (text d dt : String) :
    idsOf (updateTask tasks id text d dt) = idsOf tasks := by
  unfold updateTask
  split
  · rfl
  · unfold idsOf
    rw [List.map_map]
    apply List.map_congr_left
    intro t _
    by_cases h : t.id = id <;> simp [h]

theorem delete_sublist (tasks : List Task) (id : Nat) :
    List.Sublist (deleteTask tasks id) tasks :=
  List.filter_sublist tasks

theorem ids_delete_sublist (tasks : List Task) (id : Nat) :
    List.Sublist (idsOf (deleteTask tasks id)) (idsOf tasks) :=
  (delete_sublist tasks id).map Task.id

theorem mem_ids_iff (tasks : List Task) (id : Nat) :
    id ∈ idsOf tasks ↔ ∃ t ∈ tasks, t.id = id := by
  simp [idsOf]

theorem toggle_noop (tasks : List Task) (id : Nat) (h : id ∉ idsOf tasks) :
    toggleTask tasks id = tasks := by
  unfold toggleTask
  have : ∀ t ∈ tasks, (if t.id = id then { t with completed := !t.completed } else t) = t := by
    intro t ht
    rw [if_neg]
    intro hh
    exact h ((mem_ids_iff tasks id).mpr ⟨t, ht, hh⟩)
  calc tasks.map _ = tasks.map (fun t => t) := List.map_congr_left this
    _ = tasks := List.map_id' tasks

theorem update_noop (tasks : List Task) (id : Nat) (text d dt : String)
    (h : id ∉ idsOf tasks) : updateTask tasks id text d dt = tasks := by
  unfold updateTask
  split
  · rfl
  · have : ∀ t ∈ tasks,
        (if t.id = id then
          { t with text := text, dueDate := orNull d, dueTime := orNull dt }
        else t) = t := by
      intro t ht
      rw [if_neg]
      intro hh
      exact h ((mem_ids_iff tasks id).mpr ⟨t, ht, hh⟩)
    calc tasks.map _ = tasks.map (fun t => t) := List.map_congr_left this
      _ = tasks := List.map_id' tasks

theorem delete_noop (tasks : List Task) (id : Nat) (h : id ∉ idsOf tasks) :
    deleteTask tasks id = tasks := by
  unfold deleteTask
  apply List.filter_eq_self.mpr
  intro t ht
  simp only [bne_iff_ne, ne_eq]
  intro hh
  exact h ((mem_ids_iff tasks id).mpr ⟨t, ht, hh⟩)

theorem notMem_ids_applyOp (tasks : List Task) (id : Nat) (op : Op)
    (h : id ∉ idsOf tasks)
    (hop : ∀ text c d dt now, op = Op.add text c d dt now → now ≠ id) :
    id ∉ idsOf (applyOp tasks op) := by
  cases op with
  | add text c d dt now =>
    have hnow : now ≠ id := hop text c d dt now rfl
    simp only [applyOp]
    unfold addTask
    split
    · exact h
    · unfold idsOf
      simp only [List.map_append, List.map_cons, List.map_nil, List.mem_append,
        List.mem_cons, List.not_mem_nil, or_false]
      rintro (hmem | hmem)
      · exact h hmem
      · exact hnow hmem.symm
  | toggle i => simp only [applyOp]; rw [ids_toggle]; exact h
  | update i text d dt => simp only [applyOp]; rw [ids_update]; exact h
  | delete i =>
    simp only [applyOp]
    intro hmem
    exact h ((ids_delete_sublist tasks i).subset hmem)

theorem notMem_ids_run (tasks : List Task) (id : Nat) (ops : List Op)
    (h : id ∉ idsOf tasks) (hops : noAddWith id ops = true) :
    id ∉ idsOf (run tasks ops) := by
  induction ops generalizing tasks with
  | nil => exact h
  | cons op ops ih =>
    simp only [noAddWith, List.all_cons, Bool.and_eq_true] at hops
    have hstep : id ∉ idsOf (applyOp tasks op) := by
      apply notMem_ids_applyOp tasks id op h
      intro text c d dt now heq
      subst heq
      simpa using hops.1
    exact ih (applyOp tasks op) hstep hops.2

theorem nodup_ids_applyOp (tasks : List Task) (op : Op)
    (h : (idsOf tasks).Nodup)
    (hop : ∀ text c d dt now, op = Op.add text c d dt now → now ∉ idsOf tasks) :
    (idsOf (applyOp tasks op)).Nodup := by
  cases op with
  | add text c d dt now =>
    have hnow : now ∉ idsOf tasks := hop text c d dt now rfl
    simp only [applyOp]
    unfold addTask
    split
    · exact h
    · unfold idsOf
      simp only [List.map_append, List.map_cons, List.map_nil]
      rw [List.nodup_append]
      refine ⟨h, List.nodup_singleton now, ?_⟩
      intro a ha hb
      simp only [List.mem_singleton] at hb
      subst hb
      exact hnow ha
  | toggle i => simp only [applyOp]; rw [ids_toggle]; exact h
  | update i text d dt => simp only [applyOp]; rw [ids_update]; exact h
  | delete i =>
    simp only [applyOp]
    exact h.sublist (ids_delete_sublist tasks i)

theorem nodup_ids_run (tasks : List Task) (ops : List Op)
    (h : (idsOf tasks).Nodup) (hops : freshAdds tasks ops = true) :
    (idsOf (run tasks ops)).Nodup := by
  induction ops generalizing tasks with
  | nil => exact h
  | cons op ops ih =>
    simp only [freshAdds, Bool.and_eq_true] at hops
    have hstep : (idsOf (applyOp tasks op)).Nodup := by
      apply nodup_ids_applyOp tasks op h
      intro text c d dt now heq
      subst heq
      simpa using hops.1
    exact ih (applyOp tasks op) hstep hops.2

/-! Theorems settling the claims. -/

/-- Claim C6: toggling completion twice with the same id returns the
collection to exactly its original state (in particular the `completed`
flag of the matching task returns to its original value), so
`toggleCompletion` is an involution on the collection. -/
theorem toggleTask_involution (tasks : List Task) (id : Nat) :
    toggleTask (toggleTask tasks id) id = tasks := by
  unfold toggleTask
  rw [List.map_map]
  have hcomp : ((fun task : Task =>
      if task.id = id then { task with completed := !task.completed } else task) ∘
      fun task : Task =>
      if task.id = id then { task with completed := !task.completed } else task) =
      fun t => t := by
    funext t
    cases t with
    | mk i tx co ca dd dtt => by_cases h : i = id <;> simp [Function.comp, h, Bool.not_not]
  rw [hcomp]
  exact List.map_id' tasks

/-- Claim C5: `toggleTask` preserves the length and order of the collection;
position by position it flips `completed` exactly on tasks whose `id`
matches, keeping `id`, `text`, `category`, `dueDate`, `dueTime` of every
task and every field of non-matching tasks; and it is a silent no-op when
no task has the given id. -/
theorem toggleTask_spec (tasks : List Task) (id : Nat) :
    (toggleTask tasks id).length = tasks.length ∧
    (∀ p ∈ tasks.zip (toggleTask tasks id),
      p.2.id = p.1.id ∧ p.2.text = p.1.text ∧ p.2.category = p.1.category ∧
      p.2.dueDate = p.1.dueDate ∧ p.2.dueTime = p.1.dueTime ∧
      p.2.completed = (if p.1.id = id then !p.1.completed else p.1.completed)) ∧
    (id ∉ idsOf tasks → toggleTask tasks id = tasks) := by
  refine ⟨List.length_map tasks _, ?_, toggle_noop tasks id⟩
  intro p hp
  simp only [toggleTask] at hp
  have hpe := mem_zip_map tasks _ p hp
  rw [hpe]
  by_cases h : p.1.id = id <;> simp [h]

/-- Witness for C5 at a concrete collection and an absent id. -/
theorem toggleTask_spec_witness :
    toggleTask [⟨1, "a", false, "Work", none, none⟩] 5 =
      [⟨1, "a", false, "Work", none, none⟩] :=
  (toggleTask_spec [⟨1, "a", false, "Work", none, none⟩] 5).2.2 (by decide)

/-- Claim C3: `addTask` with whitespace-only text leaves the collection
unchanged; with non-blank text it appends exactly one task at the end
(the existing tasks are an unchanged prefix), and the new task has
`completed = false`, the untrimmed input text, the given category, the
supplied timestamp id, and `dueDate`/`dueTime` equal to `null` exactly
when the corresponding input is the empty string. -/
theorem addTask_spec (tasks : List Task) (text cat d dt : String) (now : Nat) :
    (jsTrim text = "" → addTask tasks text cat d dt now = tasks) ∧
    (jsTrim text ≠ "" →
      (addTask tasks text cat d dt now).length = tasks.length + 1 ∧
      (addTask tasks text cat d dt now).take tasks.length = tasks ∧
      ∀ t ∈ (addTask tasks text cat d dt now).drop tasks.length,
        t.completed = false ∧ t.text = text ∧ t.category = cat ∧ t.id = now ∧
        t.dueDate = (if d = "" then none else some d) ∧
        t.dueTime = (if dt = "" then none else some dt)) := by
  constructor
  · intro h
    unfold addTask
    rw [if_pos h]
  · intro h
    unfold addTask
    rw [if_neg h]
    refine ⟨by simp, ?_, ?_⟩
    · rw [List.take_left]
    · rw [List.drop_left]
      intro t ht
      simp only [List.mem_singleton] at ht
      subst ht
      simp [orNull]

/-- Witness for C3 at the empty collection. -/
theorem addTask_spec_witness :
    (addTask [] "Buy milk" "Shopping" "" "09:00" 7).length =
      ([] : List Task).length + 1 :=
  ((addTask_spec [] "Buy milk" "Shopping" "" "09:00" 7).2 (by decide)).1

/-- Claim C4: `updateTask` with whitespace-only text leaves the collection
entirely unchanged; it is a no-op when no task has the given id; with
non-blank text it preserves length and order, and position by position
replaces `text`, `dueDate`, `dueTime` (empty-string inputs becoming
`null`) exactly on the task whose `id` matches, keeping its `id`,
`category` and `completed`, and keeping non-matching tasks identical. -/
theorem updateTask_spec (tasks : List Task) (id : Nat) (text d dt : String) :
    (jsTrim text = "" → updateTask tasks id text d dt = tasks) ∧
    (id ∉ idsOf tasks → updateTask tasks id text d dt = tasks) ∧
    (jsTrim text ≠ "" →
      (updateTask tasks id text d dt).length = tasks.length ∧
      ∀ p ∈ tasks.zip (updateTask tasks id text d dt),
        p.2.id = p.1.id ∧ p.2.category = p.1.category ∧
        p.2.completed = p.1.completed ∧
        (p.1.id = id →
          p.2.text = text ∧ p.2.dueDate = (if d = "" then none else some d) ∧
          p.2.dueTime = (if dt = "" then none else some dt)) ∧
        (p.1.id ≠ id → p.2 = p.1)) := by
  refine ⟨?_, update_noop tasks id text d dt, ?_⟩
  · intro h
    unfold updateTask
    rw [if_pos h]
  · intro h
    constructor
    · unfold updateTask
      rw [if_neg h]
      exact List.length_map tasks _
    · intro p hp
      simp only [updateTask, if_neg h] at hp
      have hpe := mem_zip_map tasks _ p hp
      rw [hpe]
      by_cases hid : p.1.id = id <;> simp [hid, orNull]

/-- Witness for C4 at a concrete collection with a matching id. -/
theorem updateTask_spec_witness :
    (updateTask [⟨1, "a", true, "Work", none, none⟩] 1 "b" "2025-12-01" "").length =
      ([⟨1, "a", true, "Work", none, none⟩] : List Task).length :=
  ((updateTask_spec [⟨1, "a", true, "Work", none, none⟩] 1 "b" "2025-12-01" "").2.2
    (by decide)).1

/-- Claim C8: filtering with the `"All"` sentinel returns the full
collection (same elements, same order); filtering with a category
selector returns a subsequence of the collection (hence in original
relative order, and without mutating the source) containing exactly the
tasks whose `category` equals the selector. -/
theorem getFilteredTasks_spec (tasks : List Task) (c : String) (hc : c ≠ "All") :
    getFilteredTasks tasks "All" = tasks ∧
    List.Sublist (getFilteredTasks tasks c) tasks ∧
    (∀ t ∈ getFilteredTasks tasks c, t.category = c) ∧
    (∀ t ∈ tasks, t.category = c → t ∈ getFilteredTasks tasks c) := by
  refine ⟨by unfold getFilteredTasks; rw [if_pos rfl], ?_, ?_, ?_⟩
  · unfold getFilteredTasks
    rw [if_neg hc]
    exact List.filter_sublist tasks
  · intro t ht
    simp only [getFilteredTasks, if_neg hc, List.mem_filter] at ht
    simpa using ht.2
  · intro t ht hcat
    simp [getFilteredTasks, if_neg hc, List.mem_filter, ht, hcat]

/-- Witness for C8 with the `"Work"` selector. -/
theorem getFilteredTasks_spec_witness :
    getFilteredTasks [⟨1, "a", false, "Work", none, none⟩] "All" =
      [⟨1, "a", false, "Work", none, none⟩] :=
  (getFilteredTasks_spec [⟨1, "a", false, "Work", none, none⟩] "Work" (by decide)).1

/-- Claim C10: for every category selector other than the `"All"` sentinel,
the number of tasks the filter shows equals the count displayed in the
badge of that category. -/
theorem filtered_length_eq_badge_count (tasks : List Task) (c : String)
    (hc : c ≠ "All") :
    (getFilteredTasks tasks c).length = categoryBadgeCount tasks c := by
  unfold getFilteredTasks categoryBadgeCount
  rw [if_neg hc]

/-- Witness for C10 at a concrete collection and the `"Work"` badge. -/
theorem filtered_length_eq_badge_count_witness :
    (getFilteredTasks [⟨1, "a", false, "Work", none, none⟩,
      ⟨2, "b", true, "Personal", none, none⟩] "Work").length =
      categoryBadgeCount [⟨1, "a", false, "Work", none, none⟩,
        ⟨2, "b", true, "Personal", none, none⟩] "Work" :=
  filtered_length_eq_badge_count [⟨1, "a", false, "Work", none, none⟩,
    ⟨2, "b", true, "Personal", none, none⟩] "Work" (by decide)

/-- One stored Task record decodes back to itself. -/
theorem decode_encode_task (t : Task) : decodeTask (encodeTask t) = some t := by
  cases t with
  | mk id text completed category dueDate dueTime =>
    cases dueDate <;> cases dueTime <;> rfl

/-- A list of stored Task records decodes back to itself. -/
theorem decode_encode_list (tasks : List Task) :
    decodeTaskList (tasks.map encodeTask) = some tasks := by
  induction tasks with
  | nil => rfl
  | cons t ts ih => simp only [List.map_cons, decodeTaskList, decode_encode_task t, ih]

/-- Claim C9: the save/load round-trip is the identity.  At the value
level, saving any loaded `tasks` state and loading it again yields the
same state (JSON.stringify of a JSON value always re-parses to that
value), and the stored shape written for a collection of task records
decodes back to exactly the same records in the same order. -/
theorem save_load_roundtrip :
    (∀ s : Stored,
      (loadTasks (saveValue (loadTasks s).tasks)).tasks = (loadTasks s).tasks) ∧
    (∀ tasks : List Task, decodeTasks (encodeTasks tasks) = some tasks) := by
  constructor
  · intro s
    rfl
  · intro tasks
    exact decode_encode_list tasks

/-- Claim C2 counterexample: the stored value `{}` is valid JSON that is
not an ordered sequence of Task records, yet load installs it unchanged
(and reports nothing) instead of returning the empty collection. -/
theorem load_wrong_shape_counterexample :
    decodeTasks (Json.obj []) = none ∧
    loadTasks (Stored.wellFormed (Json.obj [])) =
      { tasks := Json.obj [], errorLogged := false } ∧
    Json.obj [] ≠ Json.arr [] := by
  refine ⟨rfl, rfl, ?_⟩
  intro h
  exact Json.noConfusion h

/-- Claim C2 as amended: load returns the empty collection when the key is
absent or holds the empty string; when the stored value is not valid JSON
the error is reported to the console and the empty collection is
returned, with no fatal error propagating; but when the stored value is
valid JSON of any shape whatsoever, the parsed value is installed as the
collection unvalidated. -/
theorem loadTasks_spec :
    loadTasks Stored.absent = { tasks := Json.arr [], errorLogged := false } ∧
    loadTasks Stored.emptyString = { tasks := Json.arr [], errorLogged := false } ∧
    loadTasks Stored.malformed = { tasks := Json.arr [], errorLogged := true } ∧
    (∀ j : Json, loadTasks (Stored.wellFormed j) = { tasks := j, errorLogged := false }) :=
  ⟨rfl, rfl, rfl, fun _ => rfl⟩

/-- Claim C1 counterexample: two `add` calls that observe the same
`Date.now()` timestamp (here 5, i.e. both in the same millisecond)
produce a reachable collection whose ids are not pairwise distinct. -/
theorem duplicate_timestamp_counterexample :
    ¬ (idsOf (run []
      [Op.add "a" "Personal" "" "" 5, Op.add "b" "Personal" "" "" 5])).Nodup := by
  decide

/-- Claim C1 as amended: starting from any collection with pairwise
distinct ids, any sequence of operations in which every `add` observes a
timestamp that is not already an id in the collection (as a strictly
advancing clock guarantees) yields a collection with pairwise distinct
ids; `toggle`, `update` and `delete` need no proviso. -/
theorem run_preserves_nodup_ids (tasks : List Task) (ops : List Op)
    (h1 : (idsOf tasks).Nodup) (h2 : freshAdds tasks ops = true) :
    (idsOf (run tasks ops)).Nodup :=
  nodup_ids_run tasks ops h1 h2

/-- Witness for C1 as amended: a concrete fresh-timestamp trace mixing all
four operations keeps the ids pairwise distinct. -/
theorem run_preserves_nodup_ids_witness :
    (idsOf (run []
      [Op.add "a" "Personal" "" "" 5, Op.toggle 5,
       Op.add "b" "Work" "2025-12-01" "09:00" 7, Op.update 7 "c" "" "",
       Op.delete 5, Op.add "d" "Other" "" "" 9])).Nodup :=
  run_preserves_nodup_ids []
    [Op.add "a" "Personal" "" "" 5, Op.toggle 5,
     Op.add "b" "Work" "2025-12-01" "09:00" 7, Op.update 7 "c" "" "",
     Op.delete 5, Op.add "d" "Other" "" "" 9] (by decide) (by decide)

/-- Claim C7 counterexample: after deleting the task with id 5, an `add`
that observes the reused timestamp 5 (same millisecond as the original
creation) makes a task with the deleted id reappear. -/
theorem deleted_id_reappears_counterexample :
    5 ∈ idsOf (run (deleteTask [⟨5, "t", false, "Personal", none, none⟩] 5)
      [Op.add "b" "Work" "" "" 5]) := by
  decide

/-- Claim C7 as amended: `deleteTask` yields a subsequence of the
collection (remaining tasks keep their relative order), removes every
task with the matching id and no task with a different id, and is a
no-op when the id is absent; and along any subsequent operation sequence
in which no `add` observes that id as its timestamp, the id never
reappears and `toggle`, `update` and `delete` referencing it are
no-ops. -/
theorem deleteTask_spec (tasks : List Task) (id : Nat) (ops : List Op)
    (h : noAddWith id ops = true) :
    List.Sublist (deleteTask tasks id) tasks ∧
    id ∉ idsOf (deleteTask tasks id) ∧
    (∀ t ∈ tasks, t.id ≠ id → t ∈ deleteTask tasks id) ∧
    (id ∉ idsOf tasks → deleteTask tasks id = tasks) ∧
    id ∉ idsOf (run (deleteTask tasks id) ops) ∧
    toggleTask (run (deleteTask tasks id) ops) id = run (deleteTask tasks id) ops ∧
    (∀ text d dt,
      updateTask (run (deleteTask tasks id) ops) id text d dt =
        run (deleteTask tasks id) ops) ∧
    deleteTask (run (deleteTask tasks id) ops) id = run (deleteTask tasks id) ops := by
  have hdel : id ∉ idsOf (deleteTask tasks id) := by
    intro hmem
    rw [mem_ids_iff] at hmem
    obtain ⟨t, ht, hid⟩ := hmem
    unfold deleteTask at ht
    rw [List.mem_filter] at ht
    have h2 : t.id ≠ id := by simpa using ht.2
    exact h2 hid
  have hrun : id ∉ idsOf (run (deleteTask tasks id) ops) :=
    notMem_ids_run (deleteTask tasks id) id ops hdel h
  refine ⟨delete_sublist tasks id, hdel, ?_, delete_noop tasks id, hrun,
    toggle_noop _ id hrun, fun text d dt => update_noop _ id text d dt hrun,
    delete_noop _ id hrun⟩
  intro t ht hne
  unfold deleteTask
  rw [List.mem_filter]
  exact ⟨ht, by simpa using hne⟩

/-- Witness for C7 as amended: deleting id 1 from a concrete collection
and then running a trace that never adds with timestamp 1 leaves id 1
absent. -/
theorem deleteTask_spec_witness :
    1 ∉ idsOf (run (deleteTask [⟨1, "a", false, "Work", none, none⟩,
      ⟨2, "b", true, "Personal", none, none⟩] 1)
      [Op.add "c" "Health" "" "" 3, Op.toggle 1, Op.delete 1]) :=
  (deleteTask_spec [⟨1, "a", false, "Work", none, none⟩,
    ⟨2, "b", true, "Personal", none, none⟩] 1
    [Op.add "c" "Health" "" "" 3, Op.toggle 1, Op.delete 1] (by decide)).2.2.2.2.1

end TodoApp
